import Mathlib

/-!
Verification of the quinn HTTP/3 frame codec and per-request I/O drivers.

The definitions below are a shallow embedding of `quinn-h3/src/frame.rs`,
`quinn-h3/src/data.rs` and `quinn-h3/src/headers.rs`.  Byte buffers are
`List Nat` (each element a byte value), the growable `BytesMut` consumed by
the decoder is a list whose `advance` is `List.drop`, and the asynchronous
drivers become step functions whose suspension points take their ready-values
from explicit oracle inputs.  Parts of the crate that are referenced but whose
source is not part of this tree (the `proto::frame` wire codec and the
numeric HTTP/3 error codes) are modelled from the specification's wire-format
description and are marked as such in their doc comments.
-/

namespace Quinn

/-- Modelled from the spec: the HTTP/3 application error codes carried by
QUIC resets and STOP_SENDING (`proto::ErrorCode` is not part of this source
tree).  Numeric values are those assigned by the HTTP/3 specification; the
spec requires numerical identity to be preserved across reset mappings. -/
structure ErrorCode where
  code : Nat
deriving DecidableEq, Repr

def ErrorCode.NO_ERROR : ErrorCode := ⟨0x100⟩
def ErrorCode.GENERAL_PROTOCOL_ERROR : ErrorCode := ⟨0x101⟩
def ErrorCode.INTERNAL_ERROR : ErrorCode := ⟨0x102⟩
def ErrorCode.FRAME_UNEXPECTED : ErrorCode := ⟨0x105⟩
def ErrorCode.FRAME_ERROR : ErrorCode := ⟨0x106⟩
def ErrorCode.SETTINGS_ERROR : ErrorCode := ⟨0x109⟩
def ErrorCode.REQUEST_CANCELLED : ErrorCode := ⟨0x10C⟩

/-- Modelled from the spec: the decode-failure type of the wire codec
(`proto::frame::Error`); the variants are those matched on by
`frame.rs::Error::code` and produced by the decoding algorithm of §4.1
(`Incomplete(min)` and `IncompleteData`). -/
inductive FrameError where
  | settings (reason : Nat)
  | unsupportedFrame (ty : Nat)
  | incomplete (min : Nat)
  | incompleteData
  | malformed
deriving DecidableEq, Repr

/-- `frame.rs` `Error`: a protocol decode failure or an underlying I/O
failure. -/
inductive CodecError where
  | proto (e : FrameError)
  | io
deriving DecidableEq, Repr

/-- `frame.rs` `Error::code`: map a codec failure to the HTTP/3 error code
used to reset the stream. -/
def CodecError.code : CodecError → ErrorCode
  | .io => ErrorCode.GENERAL_PROTOCOL_ERROR
  | .proto (.settings _) => ErrorCode.SETTINGS_ERROR
  | .proto (.unsupportedFrame _) => ErrorCode.FRAME_UNEXPECTED
  | .proto _ => ErrorCode.FRAME_ERROR

/-! ### Variable-length integers

Modelled from the spec: varints are 1/2/4/8 bytes with the two high bits of
the first byte indicating the length, the remaining bits holding the value
big-endian. -/

/-- Number of bytes the varint encoding of `v` occupies. -/
def varIntSize (v : Nat) : Nat :=
  if v < 64 then 1
  else if v < 16384 then 2
  else if v < 1073741824 then 4
  else 8

/-- Modelled from the spec: encode `v` as an HTTP/3/QUIC varint
(defined for `v < 2^62`). -/
def encodeVarInt (v : Nat) : List Nat :=
  if v < 64 then [v]
  else if v < 16384 then [64 + v / 2 ^ 8, v % 256]
  else if v < 1073741824 then
    [128 + v / 2 ^ 24, v / 2 ^ 16 % 256, v / 2 ^ 8 % 256, v % 256]
  else
    [192 + v / 2 ^ 56, v / 2 ^ 48 % 256, v / 2 ^ 40 % 256, v / 2 ^ 32 % 256,
      v / 2 ^ 24 % 256, v / 2 ^ 16 % 256, v / 2 ^ 8 % 256, v % 256]

/-- Modelled from the spec: decode a varint from the front of `buf`,
returning the number of bytes consumed and the value, or `none` when the
buffer is too short. -/
def decodeVarInt : List Nat → Option (Nat × Nat)
  | [] => none
  | b :: rest =>
    if b < 64 then some (1, b)
    else if b < 128 then
      match rest with
      | b1 :: _ => some (2, (b - 64) * 2 ^ 8 + b1)
      | [] => none
    else if b < 192 then
      match rest with
      | b1 :: b2 :: b3 :: _ =>
        some (4, (b - 128) * 2 ^ 24 + b1 * 2 ^ 16 + b2 * 2 ^ 8 + b3)
      | _ => none
    else
      match rest with
      | b1 :: b2 :: b3 :: b4 :: b5 :: b6 :: b7 :: _ =>
        some (8, (b - 192) * 2 ^ 56 + b1 * 2 ^ 48 + b2 * 2 ^ 40 + b3 * 2 ^ 32 +
          b4 * 2 ^ 24 + b5 * 2 ^ 16 + b6 * 2 ^ 8 + b7)
      | _ => none

/-! ### Frames -/

/-- Modelled from the spec: the decoded HTTP/3 frame (`proto::frame::HttpFrame`).
Known kinds carry their payload bytes; every frame type outside the known set
is accepted as `Reserved` (§3, §9). -/
inductive HttpFrame where
  | data (payload : List Nat)
  | headers (encoded : List Nat)
  | cancelPush (raw : List Nat)
  | settings (raw : List Nat)
  | pushPromise (raw : List Nat)
  | goaway (raw : List Nat)
  | maxPushId (raw : List Nat)
  | reserved
deriving DecidableEq, Repr

/-- The wire type code of a frame (§6; `Reserved` is written with a grease
code). -/
def HttpFrame.wireType : HttpFrame → Nat
  | .data _ => 0x0
  | .headers _ => 0x1
  | .cancelPush _ => 0x3
  | .settings _ => 0x4
  | .pushPromise _ => 0x5
  | .goaway _ => 0x7
  | .maxPushId _ => 0xD
  | .reserved => 0x21

/-- The payload bytes a frame is encoded with. -/
def HttpFrame.payloadBytes : HttpFrame → List Nat
  | .data p => p
  | .headers p => p
  | .cancelPush p => p
  | .settings p => p
  | .pushPromise p => p
  | .goaway p => p
  | .maxPushId p => p
  | .reserved => []

/-- Construct the frame for a decoded wire type and payload; unknown type
codes map to `Reserved`. -/
def mkFrame (ty : Nat) (payload : List Nat) : HttpFrame :=
  if ty = 0x0 then .data payload
  else if ty = 0x1 then .headers payload
  else if ty = 0x3 then .cancelPush payload
  else if ty = 0x4 then .settings payload
  else if ty = 0x5 then .pushPromise payload
  else if ty = 0x7 then .goaway payload
  else if ty = 0xD then .maxPushId payload
  else .reserved

def HttpFrame.isData : HttpFrame → Bool
  | .data _ => true
  | _ => false

/-- Modelled from the spec: wire encoding of a frame,
`varint(type) · varint(length) · payload` (§3, §6). -/
def HttpFrame.encode (f : HttpFrame) : List Nat :=
  encodeVarInt f.wireType ++ encodeVarInt f.payloadBytes.length ++ f.payloadBytes

/-- Length of the encoded frame header (the two varints). -/
def HttpFrame.headerSize (f : HttpFrame) : Nat :=
  varIntSize f.wireType + varIntSize f.payloadBytes.length

/-- Modelled from the spec: `HttpFrame::decode` over the bytes visible in the
buffer.  Returns the cursor position together with the frame on success;
`Incomplete(n)` when fewer than `n` bytes are available, and `IncompleteData`
when a DATA frame's header is complete but its payload does not fit (§4.1). -/
def HttpFrame.decode (buf : List Nat) : Except FrameError (Nat × HttpFrame) :=
  match decodeVarInt buf with
  | none => .error (.incomplete (buf.length + 1))
  | some (n1, ty) =>
    match decodeVarInt (buf.drop n1) with
    | none => .error (.incomplete (buf.length + 1))
    | some (n2, len) =>
      let hdr := n1 + n2
      if buf.length - hdr < len then
        if ty = 0x0 then .error .incompleteData
        else .error (.incomplete (hdr + len))
      else
        .ok (hdr + len, mkFrame ty ((buf.drop hdr).take len))

/-- Modelled from the spec (§3): mid-frame DATA decoding state — the total
declared length and the number of bytes still owed to the current DATA
frame. -/
structure PartialData where
  len : Nat
  remaining : Nat
deriving DecidableEq, Repr

/-- Modelled from the spec (§4.1 step 3): `PartialData::decode` — re-parse
the DATA frame header, take every already-available payload byte as the first
chunk, and owe the rest.  The cursor consumes the whole buffer. -/
def PartialData.decode (buf : List Nat) :
    Except FrameError (Nat × PartialData × List Nat) :=
  match decodeVarInt buf with
  | none => .error .malformed
  | some (n1, _ty) =>
    match decodeVarInt (buf.drop n1) with
    | none => .error .malformed
    | some (n2, len) =>
      let chunk := buf.drop (n1 + n2)
      .ok (buf.length, ⟨len, len - chunk.length⟩, chunk)

/-- Modelled from the spec (§4.1 step 1): `PartialData::decode_data` — read
up to `remaining` bytes from the buffer as a DATA payload chunk.  Returns the
cursor position, the chunk, and the updated record. -/
def PartialData.decodeData (p : PartialData) (buf : List Nat) :
    Nat × List Nat × PartialData :=
  let chunk := buf.take p.remaining
  (chunk.length, chunk, ⟨p.len, p.remaining - chunk.length⟩)

/-! ### The incremental frame decoder (`frame.rs::FrameDecoder`) -/

/-- `frame.rs` `FrameDecoder`: the `tokio_util` codec state.  The Rust field
`partial` is named `partialData` here (`partial` is reserved in Lean). -/
structure FrameDecoder where
  partialData : Option PartialData
  expected : Option Nat
deriving DecidableEq, Repr

instance : Inhabited FrameDecoder := ⟨⟨none, none⟩⟩

/-- `frame.rs` `FrameDecoder::decode` (lines 56–104): one call on the shared
buffer `src`.  Returns the updated decoder state, the buffer after
`advance`, and `Ok(Some frame) | Ok(None) | Err e`. -/
def FrameDecoder.decode (d : FrameDecoder) (src : List Nat) :
    FrameDecoder × List Nat × Except CodecError (Option HttpFrame) :=
  if src.isEmpty then (d, src, .ok none)
  else
    match d.partialData with
    | some p =>
      let (pos, chunk, p') := p.decodeData src
      let src' := src.drop pos
      let d' : FrameDecoder :=
        { d with partialData := if p'.remaining = 0 then none else some p' }
      (d', src', .ok (some (.data chunk)))
    | none =>
      let gated : Bool :=
        match d.expected with
        | some min => decide (src.length < min)
        | none => false
      if gated then (d, src, .ok none)
      else
        match HttpFrame.decode src with
        | .error .incompleteData =>
          match PartialData.decode src with
          | .error e => (d, src, .error (.proto e))
          | .ok (pos, p, chunk) =>
            let src' := src.drop pos
            let d' : FrameDecoder := { partialData := some p, expected := none }
            if chunk.length > 0 then (d', src', .ok (some (.data chunk)))
            else (d', src', .ok none)
        | .error (.incomplete min) =>
          ({ d with expected := some min }, src, .ok none)
        | .error e => (d, src, .error (.proto e))
        | .ok (pos, frame) =>
          ({ d with expected := none }, src.drop pos, .ok (some frame))

/-! ### The frame writer (`frame.rs::WriteFrame`) -/

/-- `frame.rs` `WriteFrameState`: header progress offset, payload phase, or
terminal. -/
inductive WriteFrameState where
  | header (start : Nat)
  | payload
  | finished
deriving DecidableEq, Repr

/-- `frame.rs` `WriteFrame`: drives one frame onto a send stream.  The send
stream itself carries no data here, only its presence (`Option Unit` mirrors
`Option<SendStream>`); `header` is the encoded-header scratch with
`headerLen` valid bytes, `payload` the not-yet-accepted payload view. -/
structure WriteFrame where
  state : WriteFrameState
  send : Option Unit
  header : List Nat
  headerLen : Nat
  payload : List Nat
deriving DecidableEq, Repr

/-- `frame.rs` `WriteFrame::new`: encode the frame header into the scratch,
start in `Header(0)`, owning the stream.  The header is
`varint(type) · varint(payload length)`. -/
def WriteFrame.new (ty : Nat) (payload : List Nat) : WriteFrame :=
  let hdr := encodeVarInt ty ++ encodeVarInt payload.length
  { state := .header 0, send := some (), header := hdr,
    headerLen := hdr.length, payload := payload }

/-- Observable side effects of the drivers. -/
inductive Action where
  | resetSend (code : ErrorCode)
  | stopRecv (code : ErrorCode)
  | requestFinished (id : Nat)
deriving DecidableEq, Repr

/-- `frame.rs` `WriteFrame::reset`: forward a reset carrying `code` when the
stream is still held. -/
def WriteFrame.reset (w : WriteFrame) (code : ErrorCode) : List Action :=
  match w.send with
  | some _ => [.resetSend code]
  | none => []

/-- The result of one `quinn` stream `write` call, supplied by the oracle:
the number of bytes the stream accepted, a would-block, or a failure. -/
inductive WriteRes where
  | ok (n : Nat)
  | pending
  | failed
deriving DecidableEq, Repr

/-- Bytes the send stream accepted, tagged by which phase wrote them. -/
inductive WriteEv where
  | hdr (bytes : List Nat)
  | pay (bytes : List Nat)
deriving DecidableEq, Repr

def WriteEv.isHdr : WriteEv → Bool
  | .hdr _ => true
  | .pay _ => false

def WriteEv.size : WriteEv → Nat
  | .hdr b => b.length
  | .pay b => b.length

/-- Terminal observation of driving a future. -/
inductive RunOut where
  | done
  | errored
  | suspended
  | panicked
deriving DecidableEq, Repr

/-- `frame.rs` `WriteFrame::poll` (lines 165–208) driven against an oracle of
write results; `pending` models returning `Poll::Pending` and being polled
again, so one run covers a whole sequence of polls.  A write never accepts
more bytes than were offered, so accepted counts are clipped to the request
size (the QUIC stream contract). -/
def writeFrameGo (st : WriteFrameState) (w : WriteFrame)
    (oracle : List WriteRes) : WriteFrame × List WriteEv × RunOut :=
  match st with
  | .finished => ({ w with state := st }, [], .panicked)
  | .header start =>
    match oracle with
    | [] => ({ w with state := st }, [], .suspended)
    | .pending :: rest => writeFrameGo st w rest
    | .failed :: _ => ({ w with state := st }, [], .errored)
    | .ok n :: rest =>
      let req := (w.header.take w.headerLen).drop start
      let wrote := min n req.length
      let ev := WriteEv.hdr (req.take wrote)
      let start' := start + wrote
      let st' : WriteFrameState :=
        if start' < w.headerLen then .header start' else .payload
      let r := writeFrameGo st' w rest
      (r.1, ev :: r.2.1, r.2.2)
  | .payload =>
    match oracle with
    | [] => ({ w with state := st }, [], .suspended)
    | .pending :: rest => writeFrameGo st w rest
    | .failed :: _ => ({ w with state := st, send := none }, [], .errored)
    | .ok n :: rest =>
      let wrote := min n w.payload.length
      let ev := WriteEv.pay (w.payload.take wrote)
      let p' := w.payload.drop wrote
      if p'.length > 0 then
        let r := writeFrameGo .payload { w with payload := p' } rest
        (r.1, ev :: r.2.1, r.2.2)
      else
        ({ w with payload := p', state := .finished, send := none }, [ev], .done)

/-- `frame.rs` `WriteFrame::poll` (lines 165–208) driven against an oracle of
write results. -/
def WriteFrame.run (w : WriteFrame) (oracle : List WriteRes) :
    WriteFrame × List WriteEv × RunOut :=
  writeFrameGo w.state w oracle

/-! ### The send driver (`data.rs::SendData`) -/

/-- §3's logical header block (`proto::headers::Header`); its contents are
opaque to the drivers, only the trailer marker is observable. -/
structure Header where
  trailer : Bool
deriving DecidableEq, Repr

/-- `data.rs` `SendDataState`: the writing sub-states carry the in-flight
frame writer (`SendHeaders` wraps a `WriteFrame<HeadersFrame>`). -/
inductive SendDataState where
  | initial
  | headers (w : WriteFrame)
  | pollBody
  | write (w : WriteFrame)
  | pollTrailers
  | trailers (w : WriteFrame)
  | closing
  | finished
deriving DecidableEq, Repr

/-- `data.rs` `SendData`: the driver for one request/response send half.
The connection reference and the body producer act through oracles; `send`
mirrors `Option<SendStream>`. -/
structure SendData where
  headers : Option Header
  state : SendDataState
  send : Option Unit
  streamId : Nat
  finish : Bool
deriving DecidableEq, Repr

/-- `data.rs` `SendData::cancel` (lines 84–100), translated statement by
statement: the Rust assigns `self.state = Finished` and then matches on
`self.state`. -/
def SendData.cancel (sd : SendData) : SendData × List Action :=
  let sd1 := { sd with state := SendDataState.finished }
  match sd1.state with
  | .write w =>
    ({ sd1 with state := .finished }, w.reset ErrorCode.REQUEST_CANCELLED)
  | .trailers w =>
    ({ sd1 with state := .finished }, w.reset ErrorCode.REQUEST_CANCELLED)
  | _ =>
    match sd1.send with
    | some _ =>
      ({ sd1 with send := none, state := .finished },
        [.resetSend ErrorCode.REQUEST_CANCELLED])
    | none => ({ sd1 with state := .finished }, [])

/-- The error type surfaced by the drivers (`Error` in `lib.rs`); payloads
that the claims do not inspect are elided. -/
inductive HError where
  | body
  | encode
  | write
  | peer
  | codec (e : CodecError)
  | internal
deriving DecidableEq, Repr

deriving instance DecidableEq for Except

/-- What one `poll` iteration of `SendData` observes or returns. -/
inductive SendOut where
  | again
  | pendingOut
  | ready (r : Except HError Unit)
  | panicked
deriving DecidableEq, Repr

/-- Poll result of an in-flight sub-future (a `SendHeaders` or
`WriteFrame`): the stream comes back, we must wait, or the write failed. -/
inductive SubRes where
  | done
  | pend
  | failed
deriving DecidableEq, Repr

/-- Ready-values for the suspension points of `SendData::poll`, one field per
awaited collaborator.  `encodeRes` is the connection's `encode_header`
result as the header writer it yields (`SendHeaders::new`), `bodyData` is
`poll_data` (`none` = `Pending`), `bodyTrailers` is `poll_trailers`, and
`finishRes` is `poll_finish`. -/
structure SendEnv where
  encodeRes : Except HError WriteFrame
  subRes : SubRes
  bodyData : Option (Option (Except Unit (List Nat)))
  bodyTrailers : Option (Except Unit (Option Header))
  trailersEncodeRes : Except HError WriteFrame
  finishRes : Option (Except Unit Unit)
deriving Repr

/-- `data.rs` `SendData::poll` (lines 131–197), one iteration of the `loop`:
the match arm for the current state, with each `ready!`/`?` taking its value
from `env`.  `again` means the Rust `loop` would continue with the updated
state. -/
def SendData.step (sd : SendData) (env : SendEnv) :
    SendData × List Action × SendOut :=
  match sd.state with
  | .initial =>
    match sd.headers with
    | none => (sd, [], .panicked)
    | some _ =>
      match sd.send with
      | none => ({ sd with headers := none }, [], .panicked)
      | some _ =>
        match env.encodeRes with
        | .error e => ({ sd with headers := none, send := none }, [], .ready (.error e))
        | .ok w =>
          ({ sd with headers := none, send := none, state := .headers w }, [], .again)
  | .headers _ =>
    match env.subRes with
    | .pend => (sd, [], .pendingOut)
    | .failed => (sd, [], .ready (.error .write))
    | .done => ({ sd with send := some (), state := .pollBody }, [], .again)
  | .pollBody =>
    match env.bodyData with
    | none => (sd, [], .pendingOut)
    | some none => ({ sd with state := .pollTrailers }, [], .again)
    | some (some (.error _)) => (sd, [], .ready (.error .body))
    | some (some (.ok d)) =>
      match sd.send with
      | none => (sd, [], .panicked)
      | some _ =>
        ({ sd with send := none, state := .write (WriteFrame.new 0x0 d) }, [], .again)
  | .write _ =>
    match env.subRes with
    | .pend => (sd, [], .pendingOut)
    | .failed => (sd, [], .ready (.error .write))
    | .done => ({ sd with send := some (), state := .pollBody }, [], .again)
  | .pollTrailers =>
    match env.bodyTrailers with
    | none => (sd, [], .pendingOut)
    | some (.error _) => (sd, [], .panicked)
    | some (.ok none) => ({ sd with state := .closing }, [], .again)
    | some (.ok (some _)) =>
      match sd.send with
      | none => (sd, [], .panicked)
      | some _ =>
        match env.trailersEncodeRes with
        | .error e => ({ sd with send := none }, [], .ready (.error e))
        | .ok w => ({ sd with send := none, state := .trailers w }, [], .again)
  | .trailers _ =>
    match env.subRes with
    | .pend => (sd, [], .pendingOut)
    | .failed => (sd, [], .ready (.error .write))
    | .done => ({ sd with send := some (), state := .closing }, [], .again)
  | .closing =>
    match env.finishRes with
    | none => (sd, [], .pendingOut)
    | some (.error _) => (sd, [], .ready (.error .write))
    | some (.ok _) =>
      (sd, if sd.finish then [.requestFinished sd.streamId] else [], .ready (.ok ()))
  | .finished => (sd, [], .ready (.ok ()))

/-! ### The receive driver (`data.rs::RecvData`) -/

/-- `data.rs` `RecvDataState`; `Decoding` holds the detached HEADERS frame
being QPACK-decoded. -/
inductive RecvDataState where
  | receiving
  | decoding (encoded : List Nat)
  | finished
deriving DecidableEq, Repr

/-- `data.rs` `RecvData`. -/
structure RecvData where
  state : RecvDataState
  recv : Option Unit
  streamId : Nat
deriving DecidableEq, Repr

/-- One yield of the `FrameStream` feeding `RecvData::poll`: a decoded frame,
a codec failure, end of stream (`None`), or no item ready yet. -/
inductive RItem where
  | ok (f : HttpFrame)
  | fail (e : CodecError)
  | eos
  | pend
deriving DecidableEq, Repr

/-- Outcome of driving `RecvData::poll`. -/
inductive RecvOut where
  | gotHeaders (encoded : List Nat)
  | failed (e : HError)
  | pendingOut
  | panicked
deriving DecidableEq, Repr

/-- `data.rs` `RecvData::poll` (lines 232–274) in the `Receiving` state,
driven over the stream items it pulls.  `Reserved` frames are skipped by the
`loop`; reaching `Decoding` is reported as `gotHeaders` (the subsequent QPACK
decode is the connection's affair).  Polling in `Finished` panics. -/
def RecvData.runReceiving (rd : RecvData) (items : List RItem) :
    RecvData × List Action × RecvOut :=
  match items with
  | [] => (rd, [], .pendingOut)
  | .pend :: _ => (rd, [], .pendingOut)
  | .ok .reserved :: rest => RecvData.runReceiving rd rest
  | .ok (.headers enc) :: _ =>
    ({ rd with state := .decoding enc }, [], .gotHeaders enc)
  | .fail e :: _ =>
    (rd, [.stopRecv e.code], .failed (.codec e))
  | .ok _ :: _ =>
    (rd, [.stopRecv ErrorCode.FRAME_UNEXPECTED], .failed .peer)
  | .eos :: _ => (rd, [], .failed .peer)

def RecvData.run (rd : RecvData) (items : List RItem) :
    RecvData × List Action × RecvOut :=
  match rd.state with
  | .finished => (rd, [], .panicked)
  | .decoding enc => (rd, [], .gotHeaders enc)
  | .receiving => rd.runReceiving items

/-! ## Theorems -/

/-- `List.drop` past the length is the same as dropping exactly the
length. -/
theorem drop_min_length {α : Type} (l : List α) (n : Nat) :
    l.drop (min n l.length) = l.drop n := by
  rcases Nat.le_total n l.length with h | h
  · rw [Nat.min_eq_left h]
  · rw [Nat.min_eq_right h, List.drop_length, List.drop_eq_nil_of_le h]

/-- C2: the HTTP/3 error code attached to every decoder error value:
`SETTINGS_ERROR` for SETTINGS-specific decode failures, `FRAME_UNEXPECTED`
for an unsupported frame kind, `FRAME_ERROR` for any other protocol decode
failure, and `GENERAL_PROTOCOL_ERROR` for I/O failures. -/
theorem codecError_code_mapping :
    (∀ r, (CodecError.proto (.settings r)).code = ErrorCode.SETTINGS_ERROR)
    ∧ (∀ t, (CodecError.proto (.unsupportedFrame t)).code = ErrorCode.FRAME_UNEXPECTED)
    ∧ (∀ e : FrameError, (∀ r, e ≠ .settings r) → (∀ t, e ≠ .unsupportedFrame t) →
        (CodecError.proto e).code = ErrorCode.FRAME_ERROR)
    ∧ CodecError.code .io = ErrorCode.GENERAL_PROTOCOL_ERROR := by
  refine ⟨fun _ => rfl, fun _ => rfl, ?_, rfl⟩
  intro e hs hu
  cases e with
  | settings r => exact absurd rfl (hs r)
  | unsupportedFrame t => exact absurd rfl (hu t)
  | incomplete _ => rfl
  | incompleteData => rfl
  | malformed => rfl

/-- Witness for C2 at the `Incomplete` error value. -/
theorem codecError_code_mapping_witness :
    (CodecError.proto (.incomplete 5)).code = ErrorCode.FRAME_ERROR :=
  codecError_code_mapping.2.2.1 (.incomplete 5)
    (fun _ h => FrameError.noConfusion h) (fun _ h => FrameError.noConfusion h)

/-- C3: while a `PartialData` is active, a decode call never parses a frame
header: it consumes exactly the payload chunk `src.take p.remaining` (at most
`remaining` bytes), yields it as a `Data` frame, leaves `expected` untouched,
and clears the `PartialData` exactly when the remaining count reaches
zero. -/
theorem frameDecoder_partial_no_header (d : FrameDecoder) (p : PartialData)
    (src : List Nat) (hp : d.partialData = some p) (hne : src ≠ []) :
    d.decode src =
      ({ d with partialData :=
          if src.length < p.remaining then some ⟨p.len, p.remaining - src.length⟩
          else none },
        src.drop p.remaining,
        .ok (some (.data (src.take p.remaining)))) := by
  have hlt : (src.take p.remaining).length = min p.remaining src.length :=
    List.length_take _ _
  unfold FrameDecoder.decode PartialData.decodeData
  rw [if_neg (by simpa [List.isEmpty_iff] using hne), hp]
  simp only [hlt, drop_min_length]
  rcases Nat.lt_or_ge src.length p.remaining with h | h
  · rw [Nat.min_eq_right (Nat.le_of_lt h)]
    rw [if_neg (by omega), if_pos h]
  · rw [Nat.min_eq_left h, if_pos (by omega), if_neg (by omega)]

/-- Witness for C3: a decoder owing three bytes fed a two-byte buffer. -/
theorem frameDecoder_partial_no_header_witness :
    FrameDecoder.decode ⟨some ⟨4, 3⟩, some 9⟩ [2, 3] =
      (⟨some ⟨4, 1⟩, some 9⟩, [], .ok (some (.data [2, 3]))) := by
  have h := frameDecoder_partial_no_header ⟨some ⟨4, 3⟩, some 9⟩ ⟨4, 3⟩ [2, 3]
    rfl (by decide)
  simpa using h

/-- C10: a decode call on a decoder with no active `PartialData` clears the
recorded minimum (`expected`) whenever it yields a complete frame and
whenever it enters `PartialData` mode, so a recorded minimum only gates the
immediately following header parse. -/
theorem frameDecoder_expected_cleared (d : FrameDecoder) (src : List Nat)
    (hpd : d.partialData = none) :
    (∀ f, (d.decode src).2.2 = .ok (some f) → (d.decode src).1.expected = none)
    ∧ ((d.decode src).1.partialData ≠ none → (d.decode src).1.expected = none) := by
  unfold FrameDecoder.decode
  rw [hpd]
  simp only
  repeat' split
  all_goals refine ⟨fun f hf => ?_, fun hc => ?_⟩
  all_goals simp_all

/-- Witness for C10: after decoding a complete HEADERS frame the recorded
minimum is gone. -/
theorem frameDecoder_expected_cleared_witness :
    (FrameDecoder.decode ⟨none, some 7⟩ [1, 5, 10, 11, 12, 13, 14]).1.expected = none :=
  (frameDecoder_expected_cleared ⟨none, some 7⟩ [1, 5, 10, 11, 12, 13, 14] rfl).1
    (.headers [10, 11, 12, 13, 14]) (by decide)

/-- C1 (code bug): `SendData::cancel` assigns `state = Finished` before
matching on `state`, so the `Write`/`Trailers` arms are unreachable.  Called
while a data frame is mid-write (the writer owns the stream, `send` is
`None`), no reset is issued at all — the peer never receives
`REQUEST_CANCELLED`, contradicting both the claim and the method's own doc
comment.  A second cancel is likewise reset-free. -/
theorem sendData_cancel_write_no_reset :
    (SendData.cancel
        ⟨none, .write (WriteFrame.new 0x0 [1, 2, 3]), none, 4, true⟩ =
      (⟨none, .finished, none, 4, true⟩, []))
    ∧ (SendData.cancel ⟨none, .finished, none, 4, true⟩ =
      (⟨none, .finished, none, 4, true⟩, [])) := by decide

/-- C6: the receive driver's frame protocol: a leading `Reserved` frame is
discarded and polling continues; a first frame of any other non-HEADERS kind
stops the receive stream with `FRAME_UNEXPECTED` and fails with a
peer-misbehavior error; a codec failure stops the stream with the
codec-supplied code and fails; end-of-stream before any HEADERS fails with
peer misbehavior; a HEADERS frame moves the driver to decoding. -/
theorem recvData_first_frame_protocol (rd : RecvData) (rest : List RItem)
    (h : rd.state = .receiving) :
    (RecvData.run rd (.ok .reserved :: rest) = RecvData.run rd rest)
    ∧ (∀ f : HttpFrame, f ≠ .reserved → (∀ enc, f ≠ .headers enc) →
        RecvData.run rd (.ok f :: rest) =
          (rd, [.stopRecv ErrorCode.FRAME_UNEXPECTED], .failed .peer))
    ∧ (∀ e, RecvData.run rd (.fail e :: rest) =
        (rd, [.stopRecv e.code], .failed (.codec e)))
    ∧ (RecvData.run rd (.eos :: rest) = (rd, [], .failed .peer))
    ∧ (∀ enc, RecvData.run rd (.ok (.headers enc) :: rest) =
        ({ rd with state := .decoding enc }, [], .gotHeaders enc)) := by
  have hrun : ∀ its, RecvData.run rd its = rd.runReceiving its := by
    intro its
    unfold RecvData.run
    rw [h]
  refine ⟨?_, ?_, ?_, ?_, ?_⟩
  · rw [hrun, hrun, RecvData.runReceiving]
  · intro f hfr hfh
    rw [hrun]
    cases f with
    | headers enc => exact absurd rfl (hfh enc)
    | reserved => exact absurd rfl hfr
    | data _ => rfl
    | cancelPush _ => rfl
    | settings _ => rfl
    | pushPromise _ => rfl
    | goaway _ => rfl
    | maxPushId _ => rfl
  · intro e
    rw [hrun]
    rfl
  · rw [hrun]
    rfl
  · intro enc
    rw [hrun]
    rfl

/-- Witness for C6: a DATA frame arriving first, after one discarded
reserved frame. -/
theorem recvData_first_frame_protocol_witness :
    RecvData.run ⟨.receiving, some (), 7⟩ [.ok .reserved, .ok (.data [1])] =
      (⟨.receiving, some (), 7⟩, [.stopRecv ErrorCode.FRAME_UNEXPECTED],
        .failed .peer) := by
  have h1 := (recvData_first_frame_protocol ⟨.receiving, some (), 7⟩
    [.ok (.data [1])] rfl).1
  have h2 := ((recvData_first_frame_protocol ⟨.receiving, some (), 7⟩
    [] rfl).2.1 (.data [1]) (by decide) (fun enc h => HttpFrame.noConfusion h))
  rw [h1, h2]

/-- C7 counterexample: a body-producer error in `PollingBody` returns the
body error but performs no reset at all — in particular no
`REQUEST_CANCELLED` reset of the send stream, contrary to the claim. -/
theorem sendData_body_error_resets_cex :
    SendData.step ⟨none, .pollBody, some (), 4, true⟩
        ⟨.error .encode, .pend, some (some (.error ())), none, .error .encode, none⟩ =
      (⟨none, .pollBody, some (), 4, true⟩, [], .ready (.error .body))
    ∧ Action.resetSend ErrorCode.REQUEST_CANCELLED ∉
        (SendData.step ⟨none, .pollBody, some (), 4, true⟩
          ⟨.error .encode, .pend, some (some (.error ())), none, .error .encode,
            none⟩).2.1 := by
  constructor
  · rfl
  · intro hmem
    simp [SendData.step] at hmem

/-- C7 (amended): when the body producer yields an error from a data poll in
`PollingBody`, the driver fails with a body error reported to the upper
layer; it issues no reset and leaves its state and stream untouched. -/
theorem sendData_body_error (sd : SendData) (env : SendEnv)
    (hs : sd.state = .pollBody) (hb : env.bodyData = some (some (.error ()))) :
    SendData.step sd env = (sd, [], .ready (.error .body)) := by
  unfold SendData.step
  rw [hs, hb]

/-- Witness for C7's amended theorem. -/
theorem sendData_body_error_witness :
    SendData.step ⟨some ⟨false⟩, .pollBody, some (), 9, false⟩
        ⟨.error .encode, .done, some (some (.error ())), none, .error .encode, none⟩ =
      (⟨some ⟨false⟩, .pollBody, some (), 9, false⟩, [], .ready (.error .body)) :=
  sendData_body_error _ _ rfl rfl

/-- C8 counterexample: `SendData::poll` in the `Finished` state does not
panic; it returns `Ready(Ok(()))`. -/
theorem poll_after_finished_cex :
    SendData.step ⟨none, .finished, none, 4, true⟩
        ⟨.error .encode, .pend, none, none, .error .encode, none⟩ =
      (⟨none, .finished, none, 4, true⟩, [], .ready (.ok ()))
    ∧ (SendData.step ⟨none, .finished, none, 4, true⟩
        ⟨.error .encode, .pend, none, none, .error .encode, none⟩).2.2 ≠
          .panicked := by
  exact ⟨rfl, fun hc => SendOut.noConfusion (by simpa using hc)⟩

/-- C8 (amended): polling `WriteFrame` or `RecvData` after `Finished` is a
programmer-error panic, while polling `SendData` in `Finished` returns
`Ready(Ok(()))` with no side effects (its `Finished` state is how `cancel`
makes later polls succeed). -/
theorem poll_after_finished (w : WriteFrame) (oracle : List WriteRes)
    (rd : RecvData) (items : List RItem) (sd : SendData) (env : SendEnv)
    (hw : w.state = .finished) (hr : rd.state = .finished)
    (hs : sd.state = .finished) :
    (w.run oracle).2.2 = .panicked
    ∧ (rd.run items).2.2 = .panicked
    ∧ SendData.step sd env = (sd, [], .ready (.ok ())) := by
  refine ⟨?_, ?_, ?_⟩
  · unfold WriteFrame.run
    rw [hw]
    rw [writeFrameGo]
  · unfold RecvData.run
    rw [hr]
  · unfold SendData.step
    rw [hs]

/-- Witness for C8's amended theorem. -/
theorem poll_after_finished_witness :
    ((WriteFrame.run ⟨.finished, none, [0, 3], 2, []⟩ [.ok 1]).2.2 = .panicked)
    ∧ ((RecvData.run ⟨.finished, none, 7⟩ []).2.2 = .panicked)
    ∧ SendData.step ⟨none, .finished, none, 4, true⟩
        ⟨.error .encode, .pend, none, none, .error .encode, none⟩ =
      (⟨none, .finished, none, 4, true⟩, [], .ready (.ok ())) :=
  poll_after_finished ⟨.finished, none, [0, 3], 2, []⟩ [.ok 1] ⟨.finished, none, 7⟩
    [] ⟨none, .finished, none, 4, true⟩
    ⟨.error .encode, .pend, none, none, .error .encode, none⟩ rfl rfl rfl

/-- C9 counterexample: in `Closing`, a successful finish returns
`Ready(Ok(()))` but leaves the driver in `Closing` — it does not transition
to `Finished`. -/
theorem sendData_closing_state_cex :
    (SendData.step ⟨none, .closing, some (), 4, true⟩
        ⟨.error .encode, .pend, none, none, .error .encode, some (.ok ())⟩).1.state =
      .closing
    ∧ (SendData.step ⟨none, .closing, some (), 4, true⟩
        ⟨.error .encode, .pend, none, none, .error .encode, some (.ok ())⟩).1.state ≠
      .finished := by
  exact ⟨rfl, fun hc => SendDataState.noConfusion (by simpa using hc)⟩

/-- C9 (amended): in `Closing` with the QUIC finish acknowledged, the driver
notifies the connection of request completion (`request_finished` on the
stream id) if and only if the `finish` flag was set at construction, and
returns success; its state remains `Closing` (it does not move to
`Finished`). -/
theorem sendData_closing (sd : SendData) (env : SendEnv)
    (hs : sd.state = .closing) (hf : env.finishRes = some (.ok ())) :
    SendData.step sd env =
      (sd, if sd.finish then [.requestFinished sd.streamId] else [],
        .ready (.ok ())) := by
  unfold SendData.step
  rw [hs, hf]

/-- Witness for C9's amended theorem, with the `finish` flag set. -/
theorem sendData_closing_witness :
    SendData.step ⟨none, .closing, some (), 4, true⟩
        ⟨.error .encode, .pend, none, none, .error .encode, some (.ok ())⟩ =
      (⟨none, .closing, some (), 4, true⟩, [.requestFinished 4], .ready (.ok ())) :=
  sendData_closing _ _ rfl rfl

/-- From the payload substate, every byte accepted by the stream is a
payload byte: no further header events occur. -/
theorem writeFrameGo_payload_events (w : WriteFrame) (oracle : List WriteRes) :
    ∀ e ∈ (writeFrameGo .payload w oracle).2.1, e.isHdr = false := by
  induction oracle generalizing w with
  | nil => intro e he; rw [writeFrameGo] at he; simp at he
  | cons o rest ih =>
    intro e he
    cases o with
    | pending =>
      rw [writeFrameGo] at he
      exact ih w e he
    | failed => rw [writeFrameGo] at he; simp at he
    | ok n =>
      rw [writeFrameGo] at he
      simp only at he
      by_cases hp : (w.payload.drop (min n w.payload.length)).length > 0
      · rw [if_pos hp] at he
        simp only [List.mem_cons] at he
        rcases he with rfl | he
        · rfl
        · exact ih _ e he
      · rw [if_neg hp] at he
        simp only [List.mem_cons, List.not_mem_nil, or_false] at he
        subst he
        rfl

/-- From the header substate at offset `s`, the event trace splits into
header events followed by payload events, and payload events appear only
once the accepted header bytes total exactly `headerLen - s`. -/
theorem writeFrameGo_header_split (w : WriteFrame) (s : Nat)
    (oracle : List WriteRes) (hs : s ≤ w.headerLen)
    (hlen : w.headerLen ≤ w.header.length) :
    ∃ hevs pevs,
      (writeFrameGo (.header s) w oracle).2.1 = hevs ++ pevs
      ∧ (∀ e ∈ hevs, e.isHdr = true)
      ∧ (∀ e ∈ pevs, e.isHdr = false)
      ∧ (pevs ≠ [] → s + (hevs.map WriteEv.size).sum = w.headerLen) := by
  induction oracle generalizing s with
  | nil =>
    refine ⟨[], [], ?_, by simp, by simp, by simp⟩
    rw [writeFrameGo]
    rfl
  | cons o rest ih =>
    cases o with
    | pending =>
      rw [writeFrameGo]
      exact ih s hs
    | failed =>
      refine ⟨[], [], ?_, by simp, by simp, by simp⟩
      rw [writeFrameGo]
      rfl
    | ok n =>
      have hreq : ((w.header.take w.headerLen).drop s).length = w.headerLen - s := by
        simp only [List.length_drop, List.length_take]
        omega
      rw [writeFrameGo]
      simp only [hreq]
      by_cases hlt : s + min n (w.headerLen - s) < w.headerLen
      · rw [if_pos hlt]
        obtain ⟨hevs, pevs, h1, h2, h3, h4⟩ := ih (s + min n (w.headerLen - s))
          (Nat.le_of_lt hlt)
        refine ⟨.hdr (((w.header.take w.headerLen).drop s).take
          (min n (w.headerLen - s))) :: hevs, pevs, ?_, ?_, h3, ?_⟩
        · simp [h1]
        · intro e he
          simp only [List.mem_cons] at he
          rcases he with rfl | he
          · rfl
          · exact h2 e he
        · intro hne
          have := h4 hne
          simp only [List.map_cons, List.sum_cons, WriteEv.size] at *
          have hlen2 : (((w.header.take w.headerLen).drop s).take
              (min n (w.headerLen - s))).length = min n (w.headerLen - s) := by
            simp only [List.length_take, hreq]
            omega
          omega
      · rw [if_neg hlt]
        refine ⟨[.hdr (((w.header.take w.headerLen).drop s).take
          (min n (w.headerLen - s)))],
          (writeFrameGo .payload w rest).2.1, ?_, ?_, ?_, ?_⟩
        · simp
        · intro e he
          simp only [List.mem_cons, List.not_mem_nil, or_false] at he
          subst he
          rfl
        · exact writeFrameGo_payload_events w rest
        · intro _
          simp only [List.map_cons, List.sum_cons, List.map_nil, List.sum_nil,
            WriteEv.size]
          have hlen2 : (((w.header.take w.headerLen).drop s).take
              (min n (w.headerLen - s))).length = min n (w.headerLen - s) := by
            simp only [List.length_take, hreq]
            omega
          omega

/-- C5: driving a `WriteFrame` from the header substate, no payload byte is
ever written before the last header byte has been accepted: a would-block
resumes at the same offset, and the event trace is header events followed by
payload events, with payload events possible only once the accepted header
bytes total exactly the rest of the header. -/
theorem writeFrame_header_before_payload (w : WriteFrame) (s : Nat)
    (oracle : List WriteRes) (h : w.state = .header s) (hs : s ≤ w.headerLen)
    (hlen : w.headerLen ≤ w.header.length) :
    (w.run [.pending] = (w, [], .suspended))
    ∧ ∃ hevs pevs,
        (w.run oracle).2.1 = hevs ++ pevs
        ∧ (∀ e ∈ hevs, e.isHdr = true)
        ∧ (∀ e ∈ pevs, e.isHdr = false)
        ∧ (pevs ≠ [] → s + (hevs.map WriteEv.size).sum = w.headerLen) := by
  constructor
  · unfold WriteFrame.run
    rw [h, writeFrameGo, writeFrameGo]
    obtain ⟨st, send, hd, hl, pl⟩ := w
    simp only at h
    subst h
    rfl
  · unfold WriteFrame.run
    rw [h]
    exact writeFrameGo_header_split w s oracle hs hlen

/-- Witness for C5: writing a three-byte DATA frame with the header split
across two polls separated by a would-block. -/
theorem writeFrame_header_before_payload_witness :
    ((WriteFrame.new 0x0 [1, 2, 3]).run [.pending] =
      (WriteFrame.new 0x0 [1, 2, 3], [], .suspended))
    ∧ ∃ hevs pevs,
        ((WriteFrame.new 0x0 [1, 2, 3]).run
            [.ok 1, .pending, .ok 5, .ok 2, .ok 9]).2.1 = hevs ++ pevs
        ∧ (∀ e ∈ hevs, e.isHdr = true)
        ∧ (∀ e ∈ pevs, e.isHdr = false)
        ∧ (pevs ≠ [] →
            0 + (hevs.map WriteEv.size).sum = (WriteFrame.new 0x0 [1, 2, 3]).headerLen) :=
  writeFrame_header_before_payload (WriteFrame.new 0x0 [1, 2, 3]) 0
    [.ok 1, .pending, .ok 5, .ok 2, .ok 9] rfl (by decide) (by decide)

/-! ### Varint codec lemmas -/

theorem encodeVarInt_length (v : Nat) :
    (encodeVarInt v).length = varIntSize v := by
  unfold encodeVarInt varIntSize
  split_ifs <;> rfl

theorem varIntSize_pos (v : Nat) : 0 < varIntSize v := by
  unfold varIntSize
  split_ifs <;> omega

/-- Decoding the encoding of `v` (with anything appended) consumes exactly
`varIntSize v` bytes and recovers `v`. -/
theorem decodeVarInt_encode (v : Nat) (r : List Nat) (hv : v < 2 ^ 62) :
    decodeVarInt (encodeVarInt v ++ r) = some (varIntSize v, v) := by
  unfold encodeVarInt varIntSize
  split_ifs with h1 h2 h3
  · simp only [List.cons_append, List.nil_append, decodeVarInt]
    rw [if_pos h1]
  · simp only [List.cons_append, decodeVarInt]
    rw [if_neg (by omega), if_pos (by omega)]
    simp only [Option.some.injEq, Prod.mk.injEq, true_and]
    omega
  · simp only [List.cons_append, decodeVarInt]
    rw [if_neg (by omega), if_neg (by omega), if_pos (by omega)]
    simp only [Option.some.injEq, Prod.mk.injEq, true_and]
    omega
  · simp only [List.cons_append, decodeVarInt]
    rw [if_neg (by omega), if_neg (by omega), if_neg (by omega)]
    simp only [Option.some.injEq, Prod.mk.injEq, true_and]
    omega

/-- A strict prefix of the encoding of a varint does not decode. -/
theorem decodeVarInt_take (v k : Nat) (hk : k < varIntSize v) :
    decodeVarInt ((encodeVarInt v).take k) = none := by
  unfold encodeVarInt
  unfold varIntSize at hk
  split_ifs with h1 h2 h3
  · rw [if_pos h1] at hk
    interval_cases k
    rfl
  · rw [if_neg h1, if_pos h2] at hk
    interval_cases k
    · rfl
    · show decodeVarInt [64 + v / 2 ^ 8] = none
      simp only [decodeVarInt]
      rw [if_neg (by omega), if_pos (by omega)]
  · rw [if_neg h1, if_neg h2, if_pos h3] at hk
    interval_cases k
    · rfl
    · show decodeVarInt [128 + v / 2 ^ 24] = none
      simp only [decodeVarInt]
      rw [if_neg (by omega), if_neg (by omega), if_pos (by omega)]
    · show decodeVarInt [128 + v / 2 ^ 24, v / 2 ^ 16 % 256] = none
      simp only [decodeVarInt]
      rw [if_neg (by omega), if_neg (by omega), if_pos (by omega)]
    · show decodeVarInt [128 + v / 2 ^ 24, v / 2 ^ 16 % 256, v / 2 ^ 8 % 256] = none
      simp only [decodeVarInt]
      rw [if_neg (by omega), if_neg (by omega), if_pos (by omega)]
  · rw [if_neg h1, if_neg h2, if_neg h3] at hk
    interval_cases k
    · rfl
    all_goals
      simp only [List.take_succ_cons, List.take_zero, decodeVarInt]
      rw [if_neg (by omega), if_neg (by omega), if_neg (by omega)]

/-! ### Frame codec lemmas -/

theorem wireType_lt (f : HttpFrame) : f.wireType < 64 := by
  cases f <;> simp [HttpFrame.wireType]

theorem wireType_eq_zero_iff (f : HttpFrame) :
    f.wireType = 0 ↔ f.isData = true := by
  cases f <;> simp [HttpFrame.wireType, HttpFrame.isData]

theorem mkFrame_wireType (f : HttpFrame) :
    mkFrame f.wireType f.payloadBytes = f := by
  cases f <;> rfl

theorem encode_length (f : HttpFrame) :
    f.encode.length =
      varIntSize f.wireType + varIntSize f.payloadBytes.length +
        f.payloadBytes.length := by
  simp only [HttpFrame.encode, List.length_append, encodeVarInt_length]

/-- Decoding a complete encoded frame consumes it entirely and recovers the
frame. -/
theorem httpFrame_decode_encode (f : HttpFrame)
    (hp : f.payloadBytes.length < 2 ^ 62) :
    HttpFrame.decode f.encode = .ok (f.encode.length, f) := by
  have hw : f.wireType < 2 ^ 62 := lt_trans (wireType_lt f) (by norm_num)
  have hlen := encode_length f
  unfold HttpFrame.decode HttpFrame.encode
  rw [List.append_assoc, decodeVarInt_encode _ _ hw]
  simp only
  rw [← encodeVarInt_length f.wireType, List.drop_left,
    decodeVarInt_encode _ _ hp]
  simp only
  rw [encodeVarInt_length f.wireType]
  rw [if_neg (by
    simp only [List.length_append, encodeVarInt_length]
    omega)]
  have hdp : (encodeVarInt f.wireType ++
      (encodeVarInt f.payloadBytes.length ++ f.payloadBytes)).drop
        (varIntSize f.wireType + varIntSize f.payloadBytes.length) =
      f.payloadBytes := by
    rw [← List.append_assoc]
    rw [show varIntSize f.wireType + varIntSize f.payloadBytes.length =
      (encodeVarInt f.wireType ++ encodeVarInt f.payloadBytes.length).length by
        simp [List.length_append, encodeVarInt_length]]
    exact List.drop_left _ _
  rw [hdp, List.take_length, mkFrame_wireType]
  simp only [Except.ok.injEq, Prod.mk.injEq, and_true, List.length_append,
    encodeVarInt_length]
  omega

/-- A strict prefix of an encoded frame that does not contain the complete
header of a DATA frame decodes to `Incomplete(min)` with a positive minimum
bounded by the full frame length. -/
theorem httpFrame_decode_take (f : HttpFrame) (k : Nat)
    (hp : f.payloadBytes.length < 2 ^ 62) (hk : k < f.encode.length)
    (hnd : ¬(f.isData = true ∧ f.headerSize ≤ k)) :
    ∃ min, HttpFrame.decode (f.encode.take k) = .error (.incomplete min)
      ∧ min ≤ f.encode.length ∧ 0 < min := by
  have hw : f.wireType < 2 ^ 62 := lt_trans (wireType_lt f) (by norm_num)
  have hs1 : (encodeVarInt f.wireType).length = varIntSize f.wireType :=
    encodeVarInt_length _
  have hs2 : (encodeVarInt f.payloadBytes.length).length =
      varIntSize f.payloadBytes.length := encodeVarInt_length _
  have henc : f.encode = encodeVarInt f.wireType ++
      (encodeVarInt f.payloadBytes.length ++ f.payloadBytes) := by
    rw [HttpFrame.encode, List.append_assoc]
  have hlen := encode_length f
  have hklen : (f.encode.take k).length = k := by
    rw [List.length_take]
    omega
  rcases Nat.lt_or_ge k (varIntSize f.wireType) with hA | hA
  · -- the type varint itself is truncated
    refine ⟨(f.encode.take k).length + 1, ?_, by omega, by omega⟩
    have htk : f.encode.take k = (encodeVarInt f.wireType).take k := by
      conv_lhs => rw [henc]
      exact List.take_append_of_le_length (by omega)
    unfold HttpFrame.decode
    rw [htk, decodeVarInt_take _ _ hA]
  · rcases Nat.lt_or_ge k (varIntSize f.wireType + varIntSize f.payloadBytes.length)
      with hB | hB
    · -- the length varint is truncated
      refine ⟨(f.encode.take k).length + 1, ?_, by omega, by omega⟩
      have htk : f.encode.take k = encodeVarInt f.wireType ++
          ((encodeVarInt f.payloadBytes.length).take (k - varIntSize f.wireType)) := by
        conv_lhs =>
          rw [henc, show k = (encodeVarInt f.wireType).length +
            (k - varIntSize f.wireType) from by omega]
        rw [List.take_append, List.take_append_of_le_length (by omega)]
      unfold HttpFrame.decode
      rw [htk, decodeVarInt_encode _ _ hw]
      simp only
      rw [← hs1, List.drop_left, decodeVarInt_take _ _ (by omega)]
    · -- full header present, payload truncated; excluded for DATA frames
      have hnotdata : f.wireType ≠ 0 := by
        intro h0
        exact hnd ⟨(wireType_eq_zero_iff f).mp h0, by
          unfold HttpFrame.headerSize
          omega⟩
      refine ⟨varIntSize f.wireType + varIntSize f.payloadBytes.length +
        f.payloadBytes.length, ?_, by omega, by
          have := varIntSize_pos f.wireType
          omega⟩
      have htk : f.encode.take k = encodeVarInt f.wireType ++
          (encodeVarInt f.payloadBytes.length ++
            (f.payloadBytes.take (k - varIntSize f.wireType -
              varIntSize f.payloadBytes.length))) := by
        conv_lhs =>
          rw [henc, ← List.append_assoc, show k =
            (encodeVarInt f.wireType ++ encodeVarInt f.payloadBytes.length).length +
              (k - varIntSize f.wireType - varIntSize f.payloadBytes.length) from by
                simp only [List.length_append, hs1, hs2]
                omega]
        rw [List.take_append, List.append_assoc]
      unfold HttpFrame.decode
      rw [htk, decodeVarInt_encode _ _ hw]
      simp only
      rw [← hs1, List.drop_left, decodeVarInt_encode _ _ hp]
      simp only
      rw [hs1]
      rw [if_pos (by
        simp only [List.length_append, List.length_take, hs1, hs2]
        omega)]
      rw [if_neg hnotdata]

/-- C4 counterexample: the buffer `[0x0, 4, 1]` is a strict prefix of the
valid encoded DATA frame `[0x0, 4, 1, 2, 3, 4]`, yet the decoder does not
return "need more": it consumes all three bytes and yields a `Data` chunk
(entering `PartialData` streaming). -/
theorem frameDecoder_prefix_cex :
    ((HttpFrame.data [1, 2, 3, 4]).encode.take 3 = [0x0, 4, 1])
    ∧ ¬((FrameDecoder.decode ⟨none, none⟩ [0x0, 4, 1]).2.2 = .ok none
        ∧ (FrameDecoder.decode ⟨none, none⟩ [0x0, 4, 1]).2.1 = [0x0, 4, 1]) := by
  decide

/-- C4 (amended): for any nonempty buffer holding a strict prefix of a
single valid encoded frame, provided the prefix does not contain the
complete header of a DATA frame, a fresh decoder returns "need more"
(`Ok(None)`) without consuming any byte and records the reported minimum
byte count; decoding the completed buffer then consumes it entirely and
yields the full frame.  (A DATA-frame prefix containing the full header
instead enters `PartialData` streaming.) -/
theorem frameDecoder_prefix_complete (f : HttpFrame) (k : Nat)
    (hp : f.payloadBytes.length < 2 ^ 62) (hk0 : 0 < k)
    (hk : k < f.encode.length)
    (hnd : ¬(f.isData = true ∧ f.headerSize ≤ k)) :
    ∃ min,
      FrameDecoder.decode ⟨none, none⟩ (f.encode.take k) =
        (⟨none, some min⟩, f.encode.take k, .ok none)
      ∧ min ≤ f.encode.length
      ∧ FrameDecoder.decode ⟨none, some min⟩ f.encode =
          (⟨none, none⟩, [], .ok (some f)) := by
  have hklen : (f.encode.take k).length = k := by
    rw [List.length_take]
    omega
  obtain ⟨min, hdec, hle, hpos⟩ := httpFrame_decode_take f k hp hk hnd
  refine ⟨min, ?_, hle, ?_⟩
  · unfold FrameDecoder.decode
    rw [if_neg (by
      simp only [List.isEmpty_iff]
      intro hnil
      rw [hnil] at hklen
      simp at hklen
      omega)]
    simp only [hdec, Bool.false_eq_true, if_false]
  · unfold FrameDecoder.decode
    rw [if_neg (by
      simp only [List.isEmpty_iff]
      intro hnil
      rw [hnil] at hk
      simp at hk)]
    rw [if_neg (by simp only [decide_eq_true_eq]; omega)]
    rw [httpFrame_decode_encode f hp]
    simp only
    rw [List.drop_length]

/-- Witness for C4's amended theorem: a HEADERS frame truncated by one
byte. -/
theorem frameDecoder_prefix_complete_witness :
    ∃ min,
      FrameDecoder.decode ⟨none, none⟩
          ((HttpFrame.headers [10, 11, 12, 13, 14]).encode.take 6) =
        (⟨none, some min⟩,
          (HttpFrame.headers [10, 11, 12, 13, 14]).encode.take 6, .ok none)
      ∧ min ≤ (HttpFrame.headers [10, 11, 12, 13, 14]).encode.length
      ∧ FrameDecoder.decode ⟨none, some min⟩
          (HttpFrame.headers [10, 11, 12, 13, 14]).encode =
        (⟨none, none⟩, [], .ok (some (HttpFrame.headers [10, 11, 12, 13, 14]))) :=
  frameDecoder_prefix_complete (HttpFrame.headers [10, 11, 12, 13, 14]) 6
    (by decide) (by decide) (by decide) (by decide)

end Quinn
